import Mathlib

/-!
Verification of the queue-processing core of `repoze.sendmail`
(`src/repoze/sendmail/queue.py`), shallowly embedded in Lean.

Messages are byte strings, modelled as `List Char`.  The message codec
(`_parseMessage`) is embedded as a pure function.  The per-message delivery
protocol (`_send_message`) performs a linear sequence of filesystem and SMTP
calls, each of which may fail with an errno; we model the outcome of each call
site as a field of an environment record and the function as a pure map from
that environment to a terminal outcome plus the trace of effects it attempted,
mirroring the Python control flow (including the bare `except:` catch-all)
statement by statement.
-/

namespace RepozeSendmail

/-! ## Message codec (`_parseMessage`, queue.py lines 126-151) -/

/-- The envelope-sender marker `"X-Zope-From: "`. -/
def fromMarker : List Char := "X-Zope-From: ".toList

/-- The envelope-recipients marker `"X-Zope-To: "`. -/
def toMarker : List Char := "X-Zope-To: ".toList

/-- The recipient separator `", "` used by `second[i:].split(", ")`. -/
def commaSpace : List Char := [',', ' ']

/-- Split a list at the first occurrence of `sep`; `none` when `sep` is
absent.  This is one step of Python's `str.split(sep, maxsplit)`. -/
def splitFirst (sep : Char) : List Char → Option (List Char × List Char)
  | [] => none
  | c :: rest =>
    if c = sep then some ([], rest)
    else
      match splitFirst sep rest with
      | none => none
      | some (a, b) => some (c :: a, b)

/-- Python's `message.split('\n', 2)` succeeding with three parts:
`some (first, second, rest)` iff the input holds at least two newlines,
`none` otherwise (in which case the Python unpacking raises `ValueError`). -/
def split2 (s : List Char) : Option (List Char × List Char × List Char) :=
  match splitFirst '\n' s with
  | none => none
  | some (first, rest1) =>
    match splitFirst '\n' rest1 with
    | none => none
    | some (second, rest2) => some (first, second, rest2)

/-- `stripMarker m s` returns `some t` with `s = m ++ t` when `s` starts with
`m`, i.e. Python's `s.startswith(m)` followed by `s[len(m):]`. -/
def stripMarker : List Char → List Char → Option (List Char)
  | [], s => some s
  | _ :: _, [] => none
  | m :: ms, c :: cs => if c = m then stripMarker ms cs else none

/-- Python's `s.split(", ")` (no maxsplit): current token plus the following
tokens.  Leftmost match wins, matching CPython's scan. -/
def splitSepAux : List Char → List Char × List (List Char)
  | [] => ([], [])
  | [c] => ([c], [])
  | c :: d :: rest =>
    if c = ',' ∧ d = ' ' then
      let p := splitSepAux rest
      ([], p.1 :: p.2)
    else
      let p := splitSepAux (d :: rest)
      (c :: p.1, p.2)

/-- Python's `s.split(", ")`: always a non-empty list of tokens. -/
def splitSep (s : List Char) : List (List Char) :=
  (splitSepAux s).1 :: (splitSepAux s).2

/-- `_parseMessage` (queue.py 126-151): extract `(fromaddr, toaddrs, rest)`
from the first two lines of the message; degrade to
`("", (), message)` when `split('\n', 2)` cannot produce three parts. -/
def parseMessage (message : List Char) :
    List Char × List (List Char) × List Char :=
  match split2 message with
  | none => ([], [], message)
  | some (first, second, rest) =>
    let fromaddr := (stripMarker fromMarker first).getD []
    let toaddrs : List (List Char) :=
      match stripMarker toMarker second with
      | none => []
      | some t => splitSep t
    (fromaddr, toaddrs, rest)

/-- The documented on-disk wire format (spec §6): first line
`"X-Zope-From: " + fromAddress`, second line `"X-Zope-To: "` plus the
`", "`-joined recipients, then the body. -/
def encodeMessage (fromaddr : List Char) (toaddrs : List (List Char))
    (body : List Char) : List Char :=
  fromMarker ++ fromaddr ++ '\n' ::
    (toMarker ++ List.intercalate commaSpace toaddrs ++ '\n' :: body)

/-- `true` iff the two-character recipient separator `", "` occurs in `s`. -/
def hasCommaSpace : List Char → Bool
  | [] => false
  | [_] => false
  | c :: d :: rest =>
    if c = ',' ∧ d = ' ' then true else hasCommaSpace (d :: rest)

/-! ## Codec lemmas -/

theorem splitFirst_eq_none {sep : Char} {s : List Char} (h : sep ∉ s) :
    splitFirst sep s = none := by
  induction s with
  | nil => rfl
  | cons c rest ih =>
    simp only [List.mem_cons, not_or] at h
    simp [splitFirst, Ne.symm h.1, ih h.2]

theorem splitFirst_append {sep : Char} {xs : List Char} (ys : List Char)
    (h : sep ∉ xs) : splitFirst sep (xs ++ sep :: ys) = some (xs, ys) := by
  induction xs with
  | nil => simp [splitFirst]
  | cons c rest ih =>
    simp only [List.mem_cons, not_or] at h
    simp [splitFirst, Ne.symm h.1, ih h.2]

theorem splitFirst_decomp {sep : Char} {s a b : List Char}
    (h : splitFirst sep s = some (a, b)) : s = a ++ sep :: b ∧ sep ∉ a := by
  induction s generalizing a b with
  | nil => simp [splitFirst] at h
  | cons c rest ih =>
    by_cases hc : c = sep
    · simp [splitFirst, hc] at h
      simp [h.1, ← h.2, hc]
    · simp only [splitFirst, if_neg hc] at h
      cases h' : splitFirst sep rest with
      | none => simp [h'] at h
      | some p =>
        rw [h'] at h
        obtain ⟨a', b'⟩ := p
        simp only [Option.some.injEq, Prod.mk.injEq] at h
        obtain ⟨ha, hb⟩ := h
        obtain ⟨hrest, hmem⟩ := ih h'
        subst hb
        constructor
        · rw [← ha, hrest]; rfl
        · rw [← ha]
          simp only [List.mem_cons, not_or]
          exact ⟨fun hh => hc hh.symm, hmem⟩

theorem stripMarker_append (m s : List Char) :
    stripMarker m (m ++ s) = some s := by
  induction m with
  | nil => rfl
  | cons c rest ih => simp [stripMarker, ih]

theorem splitSepAux_no_sep {xs : List Char} (h : hasCommaSpace xs = false) :
    splitSepAux xs = (xs, []) := by
  induction xs using hasCommaSpace.induct with
  | case1 => rfl
  | case2 c => rfl
  | case3 c d rest hcd =>
    simp only [hasCommaSpace, if_pos hcd] at h
    exact Bool.noConfusion h
  | case4 c d rest hcd ih =>
    simp only [hasCommaSpace, if_neg hcd] at h
    simp [splitSepAux, if_neg hcd, ih h]

theorem splitSepAux_sep {xs : List Char} (ys : List Char)
    (h : hasCommaSpace xs = false) :
    splitSepAux (xs ++ ',' :: ' ' :: ys) =
      (xs, (splitSepAux ys).1 :: (splitSepAux ys).2) := by
  induction xs using hasCommaSpace.induct with
  | case1 => simp [splitSepAux]
  | case2 c =>
    show splitSepAux (c :: ',' :: ' ' :: ys) = _
    have hne : ¬(c = ',' ∧ (',' : Char) = ' ') := by simp
    simp [splitSepAux, if_neg hne]
  | case3 c d rest hcd =>
    simp only [hasCommaSpace, if_pos hcd] at h
    exact Bool.noConfusion h
  | case4 c d rest hcd ih =>
    simp only [hasCommaSpace, if_neg hcd] at h
    have h2 := ih h
    show splitSepAux (c :: d :: (rest ++ ',' :: ' ' :: ys)) = _
    simp only [List.cons_append] at h2
    simp [splitSepAux, if_neg hcd, h2]

theorem intercalate_single (sep x : List Char) :
    List.intercalate sep [x] = x := by
  simp [List.intercalate, List.intersperse]

theorem intercalate_cons_cons (sep x y : List Char) (rest : List (List Char)) :
    List.intercalate sep (x :: y :: rest) =
      x ++ sep ++ List.intercalate sep (y :: rest) := by
  simp [List.intercalate, List.intersperse]

theorem splitSep_intercalate {tas : List (List Char)} (hne : tas ≠ [])
    (h : ∀ t ∈ tas, hasCommaSpace t = false) :
    splitSep (List.intercalate commaSpace tas) = tas := by
  induction tas with
  | nil => exact absurd rfl hne
  | cons t rest ih =>
    cases rest with
    | nil =>
      rw [intercalate_single]
      have ht := h t (by simp)
      simp [splitSep, splitSepAux_no_sep ht]
    | cons t2 rest2 =>
      rw [intercalate_cons_cons]
      have ht := h t (by simp)
      have hrest : ∀ u ∈ t2 :: rest2, hasCommaSpace u = false := by
        intro u hu
        exact h u (List.mem_cons_of_mem t hu)
      have hih := ih (by simp) hrest
      show splitSep (t ++ commaSpace ++ _) = _
      have : t ++ commaSpace ++ List.intercalate commaSpace (t2 :: rest2)
          = t ++ ',' :: ' ' :: List.intercalate commaSpace (t2 :: rest2) := by
        simp [commaSpace]
      rw [this]
      unfold splitSep
      rw [splitSepAux_sep _ ht]
      simpa [splitSep] using hih

theorem mem_intercalate_of_mem {c : Char} {tas : List (List Char)}
    (h : c ∈ List.intercalate commaSpace tas) :
    c ∈ commaSpace ∨ ∃ t ∈ tas, c ∈ t := by
  induction tas with
  | nil => simp [List.intercalate, List.intersperse] at h
  | cons t rest ih =>
    cases rest with
    | nil =>
      rw [intercalate_single] at h
      exact Or.inr ⟨t, by simp, h⟩
    | cons t2 rest2 =>
      rw [intercalate_cons_cons] at h
      simp only [List.append_assoc, List.mem_append] at h
      rcases h with h | h | h
      · exact Or.inr ⟨t, by simp, h⟩
      · exact Or.inl h
      · rcases ih h with h' | ⟨u, hu, hc⟩
        · exact Or.inl h'
        · exact Or.inr ⟨u, List.mem_cons_of_mem t hu, hc⟩

/-! ## Claims C6 and C7 -/

/-- **C6.** `_parseMessage` never raises (it is embedded as a total
function); every input holding at most one newline — in particular every
input with fewer than two lines — maps to an empty `fromaddr`, an empty
`toaddrs` tuple and the whole input as body; and whenever the split into
`first`/`second`/`rest` succeeds, a `first` line lacking the
`"X-Zope-From: "` marker leaves `fromaddr` empty, a `second` line lacking
the `"X-Zope-To: "` marker leaves `toaddrs` empty, and the body is always
`rest` — each degradation is independent of the other. -/
theorem parseMessage_total_and_degrades (m : List Char) :
    (m.count '\n' ≤ 1 → parseMessage m = ([], [], m)) ∧
    (∀ f s r, split2 m = some (f, s, r) →
      (stripMarker fromMarker f = none → (parseMessage m).1 = []) ∧
      (stripMarker toMarker s = none → (parseMessage m).2.1 = []) ∧
      (parseMessage m).2.2 = r) := by
  constructor
  · intro hcount
    cases h1 : splitFirst '\n' m with
    | none => simp [parseMessage, split2, h1]
    | some p =>
      obtain ⟨a, b⟩ := p
      obtain ⟨hm, hnot⟩ := splitFirst_decomp h1
      have hb : ('\n' : Char) ∉ b := by
        intro hmem
        have : 2 ≤ m.count '\n' := by
          rw [hm]
          have h2 : 1 ≤ b.count '\n' := List.one_le_count_iff.2 hmem
          simp [List.count_append, List.count_cons]
          omega
        omega
      have h2 : splitFirst '\n' b = none := splitFirst_eq_none hb
      simp [parseMessage, split2, h1, h2]
  · intro f s r hsplit
    simp only [parseMessage, hsplit]
    refine ⟨fun hf => ?_, fun hs => ?_, by simp⟩
    · simp [hf]
    · simp [hs]

/-- Witness for C6: the one-line input `"hi"` degrades to
`("", (), "hi")`, and for `"x\ny\nz"` (whose two lines carry no markers)
the body is exactly the third chunk. -/
theorem parseMessage_total_and_degrades_witness :
    parseMessage ['h', 'i'] = ([], [], ['h', 'i']) ∧
    (parseMessage ('x' :: '\n' :: 'y' :: '\n' :: ['z'])).2.2 = ['z'] := by
  constructor
  · exact (parseMessage_total_and_degrades ['h', 'i']).1 (by decide)
  · exact ((parseMessage_total_and_degrades _).2 ['x'] ['y'] ['z']
      (by decide)).2.2

/-- Counterexample to C7 as stated: the claim quantifies over *every*
`fromAddress`, but a sender address holding a newline breaks the
round trip even with a non-empty recipient list and a marker-free body
(`fromAddress = "a\nb"`, `toAddresses = ["c"]`, `body = "d"`). -/
theorem roundTrip_fails_on_newline_sender :
    parseMessage
        (encodeMessage ('a' :: '\n' :: ['b']) [['c']] ['d']) ≠
      (('a' :: '\n' :: ['b']), [['c']], ['d']) := by
  decide

/-- **C7 (amended).** The codec round trip holds for every `fromAddress`
free of newlines, every non-empty list of `toAddresses` each free of
newlines and of the `", "` separator, and every body: encoding with the
two-line header convention and then applying `_parseMessage` reproduces
the original triple exactly. -/
theorem parseMessage_encodeMessage_roundTrip
    (fa : List Char) (tas : List (List Char)) (body : List Char)
    (hne : tas ≠ []) (hfa : ('\n' : Char) ∉ fa)
    (htas : ∀ t ∈ tas, ('\n' : Char) ∉ t ∧ hasCommaSpace t = false) :
    parseMessage (encodeMessage fa tas body) = (fa, tas, body) := by
  have hfm : ('\n' : Char) ∉ fromMarker := by decide
  have htm : ('\n' : Char) ∉ toMarker := by decide
  have hJ : ('\n' : Char) ∉ List.intercalate commaSpace tas := by
    intro hmem
    rcases mem_intercalate_of_mem hmem with h | ⟨t, ht, hc⟩
    · revert h; decide
    · exact (htas t ht).1 hc
  have hfirst : ('\n' : Char) ∉ fromMarker ++ fa := by
    simp only [List.mem_append, not_or]
    exact ⟨hfm, hfa⟩
  have hsecond : ('\n' : Char) ∉ toMarker ++ List.intercalate commaSpace tas := by
    simp only [List.mem_append, not_or]
    exact ⟨htm, hJ⟩
  have henc : encodeMessage fa tas body =
      (fromMarker ++ fa) ++ '\n' ::
        ((toMarker ++ List.intercalate commaSpace tas) ++ '\n' :: body) := by
    simp [encodeMessage]
  have h1 := splitFirst_append
    ((toMarker ++ List.intercalate commaSpace tas) ++ '\n' :: body) hfirst
  have h2 := splitFirst_append body hsecond
  have hsplit : split2 (encodeMessage fa tas body) =
      some (fromMarker ++ fa,
        toMarker ++ List.intercalate commaSpace tas, body) := by
    rw [henc]
    simp only [split2, h1, h2]
  simp only [parseMessage, hsplit, stripMarker_append]
  rw [splitSep_intercalate hne (fun t ht => (htas t ht).2)]
  simp

/-- Witness for the amended C7 at a concrete triple. -/
theorem parseMessage_encodeMessage_roundTrip_witness :
    parseMessage
        (encodeMessage "a@x".toList ["b@x".toList, "c@x".toList]
          "hello".toList) =
      ("a@x".toList, ["b@x".toList, "c@x".toList], "hello".toList) :=
  parseMessage_encodeMessage_roundTrip _ _ _ (by decide) (by decide)
    (by decide)

/-! ## The delivery protocol (`_send_message`, queue.py 153-296)

`_send_message` performs, in order, at most one call to each of:
`os.stat(tmp)`, `os.unlink(tmp)` (stale reclaim), `os.utime(filename)`,
`_os_link(filename, tmp)`, `open/read`, `mailer.send`,
`_os_link(filename, rejected)`, `os.unlink(filename)`, `os.unlink(tmp)`.
We model the outcome the operating system / transport would give each call
site as a field of `Env`, and the function itself as a pure map from `Env`
to the terminal outcome plus the ordered trace of calls it actually made
(logging calls included). -/

/-- The errno values the code distinguishes, plus representatives of "any
other" errno (`EACCES`, `EIO`). -/
inductive Errno where
  | enoent
  | eexist
  | eacces
  | eio
deriving DecidableEq, Repr

/-- Outcome of `mailer.send`: success, `smtplib.SMTPResponseException`
carrying `smtp_code`, or any other exception. -/
inductive SendResult where
  | ok
  | smtpResponse (code : Int)
  | otherError
deriving DecidableEq, Repr

/-- One observable action of `_send_message`: a filesystem / transport
call that was actually issued, or a log record that was actually written. -/
inductive Effect where
  | statTmp
  | unlinkTmpStale
  | touchMsg
  | linkTmp
  | readMsg
  | sendMail (fromaddr : List Char) (toaddrs : List (List Char))
      (body : List Char)
  | logErrorPermanent (fromaddr : List Char) (toaddrs : List (List Char))
  | linkRejected
  | unlinkMsg
  | unlinkTmpFinal
  | logInfoSent (fromaddr : List Char) (toaddrs : List (List Char))
  | logErrorAddrs (fromaddr : List Char) (toaddrs : List (List Char))
  | logErrorFilename (filename : List Char)
deriving DecidableEq, Repr

/-- Terminal outcome of one `_send_message` run.  The `skipped…` outcomes
are the code's silent `return`s; `caught` means an exception reached the
bare `except:` at the bottom and was logged and swallowed. -/
inductive Outcome where
  | skippedFresh
  | skippedReclaimLost
  | skippedMsgGone
  | skippedRaceLost
  | delivered
  | quarantined
  | caught
deriving DecidableEq, Repr

/-- Results the environment (OS and transport) hands to each call site of
`_send_message`, one field per call site in source order. -/
structure Env where
  statTmp : Except Errno Int
  now : Int
  unlinkTmpStale : Except Errno Unit
  utimeMsg : Except Errno Unit
  linkTmp : Except Errno Unit
  readMsg : Except Unit (List Char)
  send : SendResult
  linkRejected : Except Errno Unit
  unlinkMsg : Except Errno Unit
  unlinkTmpFinal : Except Errno Unit
deriving Repr

/-- The `fromaddr`/`toaddrs` pair the catch-all handler sees when an
exception escapes the body. -/
abbrev Addrs := List Char × List (List Char)

/-- Prepend one effect to a staged result. -/
def withEv {R : Type} (e : Effect) (p : R × List Effect) :
    R × List Effect :=
  (p.1, e :: p.2)

/-- `MAX_SEND_TIME` (queue.py 78): three hours, in seconds. -/
def MAX_SEND_TIME : Int := 60 * 60 * 3

/-- Final `os.unlink(tmp_filename)` (queue.py 273-281): `ENOENT` is
tolerated, any other errno re-raises; on fall-through the success is
logged (queue.py 284-285).  `q` records whether the quarantine branch ran,
fixing the terminal outcome. -/
def stageUnlinkTmpFinal (env : Env) (q : Bool) (fa : List Char)
    (tas : List (List Char)) : (Outcome ⊕ Addrs) × List Effect :=
  match env.unlinkTmpFinal with
  | Except.ok _ =>
    (Sum.inl (if q then Outcome.quarantined else Outcome.delivered),
      [Effect.unlinkTmpFinal, Effect.logInfoSent fa tas])
  | Except.error e =>
    if e = Errno.enoent then
      (Sum.inl (if q then Outcome.quarantined else Outcome.delivered),
        [Effect.unlinkTmpFinal, Effect.logInfoSent fa tas])
    else (Sum.inr (fa, tas), [Effect.unlinkTmpFinal])

/-- `os.unlink(filename)` (queue.py 263-271): `ENOENT` is tolerated, any
other errno re-raises. -/
def stageUnlinkMsg (env : Env) (q : Bool) (fa : List Char)
    (tas : List (List Char)) : (Outcome ⊕ Addrs) × List Effect :=
  match env.unlinkMsg with
  | Except.ok _ => withEv Effect.unlinkMsg (stageUnlinkTmpFinal env q fa tas)
  | Except.error e =>
    if e = Errno.enoent then
      withEv Effect.unlinkMsg (stageUnlinkTmpFinal env q fa tas)
    else (Sum.inr (fa, tas), [Effect.unlinkMsg])

/-- `self.mailer.send(...)` and its `SMTPResponseException` handler
(queue.py 249-261): a 5xx `smtp_code` logs the permanent error and hard
links the message to `.rejected-`; the link's own failure propagates; any
non-5xx code or other exception re-raises. -/
def stageSend (env : Env) (fa : List Char) (tas : List (List Char))
    (body : List Char) : (Outcome ⊕ Addrs) × List Effect :=
  match env.send with
  | SendResult.ok =>
    withEv (Effect.sendMail fa tas body) (stageUnlinkMsg env false fa tas)
  | SendResult.smtpResponse code =>
    if 500 ≤ code ∧ code ≤ 599 then
      match env.linkRejected with
      | Except.ok _ =>
        withEv (Effect.sendMail fa tas body)
          (withEv (Effect.logErrorPermanent fa tas)
            (withEv Effect.linkRejected (stageUnlinkMsg env true fa tas)))
      | Except.error _ =>
        (Sum.inr (fa, tas),
          [Effect.sendMail fa tas body, Effect.logErrorPermanent fa tas,
            Effect.linkRejected])
    else (Sum.inr (fa, tas), [Effect.sendMail fa tas body])
  | SendResult.otherError =>
    (Sum.inr (fa, tas), [Effect.sendMail fa tas body])

/-- `open(filename).read()` then `_parseMessage` (queue.py 245-248): a read
failure propagates with the addresses still at their `''`/`()` initial
values. -/
def stageRead (env : Env) : (Outcome ⊕ Addrs) × List Effect :=
  match env.readMsg with
  | Except.error _ => (Sum.inr ([], []), [Effect.readMsg])
  | Except.ok content =>
    match parseMessage content with
    | (fa, tas, body) => withEv Effect.readMsg (stageSend env fa tas body)

/-- `_os_link(filename, tmp_filename)` (queue.py 223-233): `EEXIST` means
another worker holds the lock — silent return; any other errno
re-raises. -/
def stageLink (env : Env) : (Outcome ⊕ Addrs) × List Effect :=
  match env.linkTmp with
  | Except.ok _ => withEv Effect.linkTmp (stageRead env)
  | Except.error e =>
    if e = Errno.eexist then
      (Sum.inl Outcome.skippedRaceLost, [Effect.linkTmp])
    else (Sum.inr ([], []), [Effect.linkTmp])

/-- `os.utime(filename, None)` (queue.py 208-219): `ENOENT` means the
message vanished — silent return; any other errno re-raises. -/
def stageTouch (env : Env) : (Outcome ⊕ Addrs) × List Effect :=
  match env.utimeMsg with
  | Except.ok _ => withEv Effect.touchMsg (stageLink env)
  | Except.error e =>
    if e = Errno.enoent then
      (Sum.inl Outcome.skippedMsgGone, [Effect.touchMsg])
    else (Sum.inr ([], []), [Effect.touchMsg])

/-- The age check and stale reclaim (queue.py 182-201).  A fresh tmp file
(`age ≤ MAX_SEND_TIME`) returns silently; a stale one is unlinked, where
`ENOENT` returns silently and — exactly as in the source, whose
`except OSError` clause has no `else: raise` — any other errno is
swallowed and the attempt continues. -/
def stageAgeCheck (env : Env) (age : Option Int) :
    (Outcome ⊕ Addrs) × List Effect :=
  match age with
  | none => stageTouch env
  | some a =>
    if a > MAX_SEND_TIME then
      match env.unlinkTmpStale with
      | Except.ok _ => withEv Effect.unlinkTmpStale (stageTouch env)
      | Except.error e =>
        if e = Errno.enoent then
          (Sum.inl Outcome.skippedReclaimLost, [Effect.unlinkTmpStale])
        else withEv Effect.unlinkTmpStale (stageTouch env)
    else (Sum.inl Outcome.skippedFresh, [])

/-- The body of `_send_message`'s outer `try:` (queue.py 159-285),
starting with `os.stat(tmp_filename)` and the age computation
`age = time.time() - mtime` (queue.py 166-179). -/
def sendMessageBody (env : Env) : (Outcome ⊕ Addrs) × List Effect :=
  match env.statTmp with
  | Except.ok mtime =>
    withEv Effect.statTmp (stageAgeCheck env (some (env.now - mtime)))
  | Except.error e =>
    if e = Errno.enoent then withEv Effect.statTmp (stageAgeCheck env none)
    else (Sum.inr ([], []), [Effect.statTmp])

/-- `_send_message` (queue.py 153-296): run the body; the bare `except:`
(queue.py 288-296) logs with the recovered addresses when
`fromaddr != '' or toaddrs != ()` and with the raw filename otherwise,
and always swallows the exception. -/
def sendMessage (env : Env) (filename : List Char) :
    Outcome × List Effect :=
  match sendMessageBody env with
  | (Sum.inl o, tr) => (o, tr)
  | (Sum.inr (fa, tas), tr) =>
    if fa ≠ [] ∨ tas ≠ [] then
      (Outcome.caught, tr ++ [Effect.logErrorAddrs fa tas])
    else (Outcome.caught, tr ++ [Effect.logErrorFilename filename])

/-- `send_messages` (queue.py 119-124): iterate the maildir, checking the
stop flag before each message.  The flag readings are supplied as a
schedule, one per loop iteration; an exhausted schedule reads `False`. -/
def send_messages : List Bool → List (Env × List Char) →
    List (Outcome × List Effect)
  | _, [] => []
  | flags, w :: ws =>
    if flags.headD false then []
    else sendMessage w.1 w.2 :: send_messages flags.tail ws

/-! ## The daemon loop (`send_messages_daemon` / `send_messages_thread`,
queue.py 100-117) -/

/-- Observable actions of the daemon loop: the `atexit` registration of
`stop`, one queue pass (`send_messages()`), and one `time.sleep`. -/
inductive DaemonEvent where
  | registerStop
  | pass
  | sleep (interval : Int)
deriving DecidableEq, Repr

/-- The `while not self.__stopped` loop of `send_messages_daemon`
(queue.py 114-117).  Each iteration reads the stop flag twice — at the
loop head and again before sleeping — so the schedule supplies two
readings per iteration; an exhausted schedule stops the loop. -/
def daemonLoop : List Bool → Int → List DaemonEvent
  | [], _ => []
  | s1 :: rest, interval =>
    if s1 then []
    else
      DaemonEvent.pass ::
        match rest with
        | [] => []
        | s2 :: rest2 =>
          if s2 then []
          else DaemonEvent.sleep interval :: daemonLoop rest2 interval

/-- `send_messages_daemon(interval=3.0)` (queue.py 112-117): register the
stop handler, then loop. -/
def send_messages_daemon (flags : List Bool) (interval : Int) :
    List DaemonEvent :=
  DaemonEvent.registerStop :: daemonLoop flags interval

/-- The Python default `interval=3.0` of `send_messages_daemon`. -/
def defaultInterval : Int := 3

/-- `send_messages_thread(interval=3.0)` (queue.py 100-110): starts a
thread with `target=self.send_messages_daemon` and **no arguments**, so
the spawned daemon loop always runs with the default interval — the
`interval` parameter of `send_messages_thread` is never forwarded. -/
def send_messages_thread (interval : Int) (flags : List Bool) :
    List DaemonEvent :=
  send_messages_daemon flags defaultInterval

/-! ## Trace-shape helpers -/

/-- Effects that can occur up to and including the lock-acquisition
attempt; everything else (reading, sending, quarantining, unlinking the
live message or the lock after delivery, and all logging) happens only
after the lock is held or when an exception reaches the catch-all. -/
def preLockEffect : Effect → Bool
  | Effect.statTmp => true
  | Effect.unlinkTmpStale => true
  | Effect.touchMsg => true
  | Effect.linkTmp => true
  | _ => false

theorem sendMessage_trace_extends (env : Env) (fn : List Char) :
    ∃ extra, (sendMessage env fn).2 = (sendMessageBody env).2 ++ extra ∧
      ∀ ev ∈ extra, (∃ fa tas, ev = Effect.logErrorAddrs fa tas) ∨
        ev = Effect.logErrorFilename fn := by
  unfold sendMessage
  cases hb : sendMessageBody env with
  | mk res tr =>
    cases res with
    | inl o => exact ⟨[], by simp⟩
    | inr p =>
      obtain ⟨fa, tas⟩ := p
      by_cases hcond : fa ≠ [] ∨ tas ≠ []
      · exact ⟨[Effect.logErrorAddrs fa tas], by simp [hcond], by simp⟩
      · exact ⟨[Effect.logErrorFilename fn], by simp [hcond], by simp⟩

theorem stageTouch_cases (env : Env) :
    (∃ st, stageTouch env =
        ((stageLink env).1, Effect.touchMsg :: (stageLink env).2) ∧
        env.utimeMsg = Except.ok st) ∨
    stageTouch env = (Sum.inl Outcome.skippedMsgGone, [Effect.touchMsg]) ∨
    stageTouch env = (Sum.inr ([], []), [Effect.touchMsg]) := by
  unfold stageTouch
  cases h : env.utimeMsg with
  | ok u => exact Or.inl ⟨u, rfl, rfl⟩
  | error e =>
    by_cases he : e = Errno.enoent
    · simp [he]
    · simp [he]

theorem stageLink_race (env : Env)
    (hlink : env.linkTmp = Except.error Errno.eexist) :
    stageLink env = (Sum.inl Outcome.skippedRaceLost, [Effect.linkTmp]) := by
  simp [stageLink, hlink]

/-- Under a lost lock race, the body of `_send_message` can only take one
of nine shapes, none of which reads, sends, quarantines, finalizes or
logs. -/
theorem sendMessageBody_race_mem (env : Env)
    (hlink : env.linkTmp = Except.error Errno.eexist) :
    sendMessageBody env ∈
      ([(Sum.inr (([], []) : Addrs), [Effect.statTmp]),
        (Sum.inl Outcome.skippedRaceLost,
          [Effect.statTmp, Effect.touchMsg, Effect.linkTmp]),
        (Sum.inl Outcome.skippedMsgGone, [Effect.statTmp, Effect.touchMsg]),
        (Sum.inr ([], []), [Effect.statTmp, Effect.touchMsg]),
        (Sum.inl Outcome.skippedFresh, [Effect.statTmp]),
        (Sum.inl Outcome.skippedRaceLost,
          [Effect.statTmp, Effect.unlinkTmpStale, Effect.touchMsg,
            Effect.linkTmp]),
        (Sum.inl Outcome.skippedMsgGone,
          [Effect.statTmp, Effect.unlinkTmpStale, Effect.touchMsg]),
        (Sum.inr ([], []),
          [Effect.statTmp, Effect.unlinkTmpStale, Effect.touchMsg]),
        (Sum.inl Outcome.skippedReclaimLost,
          [Effect.statTmp, Effect.unlinkTmpStale])] :
        List ((Outcome ⊕ Addrs) × List Effect)) := by
  have htouch : stageTouch env ∈
      ([(Sum.inl Outcome.skippedRaceLost,
          [Effect.touchMsg, Effect.linkTmp]),
        (Sum.inl Outcome.skippedMsgGone, [Effect.touchMsg]),
        (Sum.inr ([], []), [Effect.touchMsg])] :
        List ((Outcome ⊕ Addrs) × List Effect)) := by
    rcases stageTouch_cases env with ⟨st, hT, _⟩ | hT | hT
    · rw [stageLink_race env hlink] at hT
      simp [hT]
    · simp [hT]
    · simp [hT]
  simp only [List.mem_cons, List.not_mem_nil, or_false] at htouch
  unfold sendMessageBody
  cases hs : env.statTmp with
  | error e =>
    by_cases he : e = Errno.enoent
    · subst he
      simp only [reduceIte]
      unfold stageAgeCheck
      rcases htouch with hT | hT | hT <;> simp [withEv, hT]
    · simp [he]
  | ok m =>
    simp only []
    unfold stageAgeCheck
    by_cases hA : env.now - m > MAX_SEND_TIME
    · simp only [if_pos hA]
      cases hu : env.unlinkTmpStale with
      | ok u => rcases htouch with hT | hT | hT <;> simp [withEv, hT]
      | error eu =>
        by_cases heu : eu = Errno.enoent
        · simp [heu, withEv]
        · simp only [if_neg heu]
          rcases htouch with hT | hT | hT <;> simp [withEv, hT]
    · simp [if_neg hA, withEv]

/-- **C1.** Whenever the lock-acquisition hard link fails with `EEXIST`
and the link call was actually reached, `_send_message` stops at once with
the silent race-lost return: the trace ends at the link attempt, and every
effect in it is one of the pre-lock operations — no read, no transport
call, no unlink or link of any other file, and no log record of any
kind. -/
theorem lockRace_no_further_side_effects (env : Env) (fn : List Char)
    (hlink : env.linkTmp = Except.error Errno.eexist)
    (hmem : Effect.linkTmp ∈ (sendMessage env fn).2) :
    (sendMessage env fn).1 = Outcome.skippedRaceLost ∧
    (sendMessage env fn).2.getLast? = some Effect.linkTmp ∧
    ∀ ev ∈ (sendMessage env fn).2, preLockEffect ev = true := by
  have hb := sendMessageBody_race_mem env hlink
  simp only [List.mem_cons, List.not_mem_nil, or_false] at hb
  rcases hb with h | h | h | h | h | h | h | h | h <;>
    simp only [sendMessage, h] at hmem ⊢ <;>
    simp_all <;> decide

/-- Witness for C1: a message with no pre-existing tmp file whose lock
link fails with `EEXIST`. -/
theorem lockRace_no_further_side_effects_witness :
    (sendMessage
        ⟨Except.error Errno.enoent, 0, Except.ok (), Except.ok (),
          Except.error Errno.eexist, Except.ok [], SendResult.ok,
          Except.ok (), Except.ok (), Except.ok ()⟩ ['m']).1 =
      Outcome.skippedRaceLost ∧
    (sendMessage
        ⟨Except.error Errno.enoent, 0, Except.ok (), Except.ok (),
          Except.error Errno.eexist, Except.ok [], SendResult.ok,
          Except.ok (), Except.ok (), Except.ok ()⟩ ['m']).2.getLast? =
      some Effect.linkTmp ∧
    ∀ ev ∈ (sendMessage
        ⟨Except.error Errno.enoent, 0, Except.ok (), Except.ok (),
          Except.error Errno.eexist, Except.ok [], SendResult.ok,
          Except.ok (), Except.ok (), Except.ok ()⟩ ['m']).2,
      preLockEffect ev = true :=
  lockRace_no_further_side_effects _ _ rfl (by decide)

/-- Either `_send_message`'s body reaches the read stage — with a pre-lock
prefix in front of it — or its whole trace consists of pre-lock
operations. -/
theorem sendMessageBody_read_cases (env : Env) :
    (∃ pre, (∀ e ∈ pre, preLockEffect e = true) ∧
      sendMessageBody env = ((stageRead env).1, pre ++ (stageRead env).2)) ∨
    (∀ e ∈ (sendMessageBody env).2, preLockEffect e = true) := by
  have hlinkc :
      (∃ pre, (∀ e ∈ pre, preLockEffect e = true) ∧
        stageLink env = ((stageRead env).1, pre ++ (stageRead env).2)) ∨
      (∀ e ∈ (stageLink env).2, preLockEffect e = true) := by
    unfold stageLink
    cases hl : env.linkTmp with
    | ok u =>
      exact Or.inl ⟨[Effect.linkTmp], by decide, by simp [withEv]⟩
    | error e =>
      right
      by_cases he : e = Errno.eexist <;> simp [he, preLockEffect]
  have htouchc :
      (∃ pre, (∀ e ∈ pre, preLockEffect e = true) ∧
        stageTouch env = ((stageRead env).1, pre ++ (stageRead env).2)) ∨
      (∀ e ∈ (stageTouch env).2, preLockEffect e = true) := by
    rcases stageTouch_cases env with ⟨st, hT, _⟩ | hT | hT
    · rcases hlinkc with ⟨pre, hpre, hL⟩ | hL
      · refine Or.inl ⟨Effect.touchMsg :: pre, ?_, ?_⟩
        · intro e he
          rcases List.mem_cons.1 he with rfl | he'
          · decide
          · exact hpre e he'
        · rw [hT, hL]; simp
      · refine Or.inr ?_
        rw [hT]
        intro e he
        rcases List.mem_cons.1 he with rfl | he'
        · decide
        · exact hL e he'
    · rw [hT]; right; decide
    · rw [hT]; right; decide
  have hagec : ∀ age : Option Int,
      (∃ pre, (∀ e ∈ pre, preLockEffect e = true) ∧
        stageAgeCheck env age =
          ((stageRead env).1, pre ++ (stageRead env).2)) ∨
      (∀ e ∈ (stageAgeCheck env age).2, preLockEffect e = true) := by
    intro age
    unfold stageAgeCheck
    cases age with
    | none => exact htouchc
    | some a =>
      by_cases hA : a > MAX_SEND_TIME
      · simp only [if_pos hA]
        cases hu : env.unlinkTmpStale with
        | ok u =>
          rcases htouchc with ⟨pre, hpre, hT⟩ | hT
          · refine Or.inl ⟨Effect.unlinkTmpStale :: pre, ?_, ?_⟩
            · intro e he
              rcases List.mem_cons.1 he with rfl | he'
              · decide
              · exact hpre e he'
            · simp [withEv, hT]
          · refine Or.inr ?_
            simp only [withEv]
            intro e he
            rcases List.mem_cons.1 he with rfl | he'
            · decide
            · exact hT e he'
        | error eu =>
          by_cases heu : eu = Errno.enoent
          · simp only [if_pos heu]; right; decide
          · simp only [if_neg heu]
            rcases htouchc with ⟨pre, hpre, hT⟩ | hT
            · refine Or.inl ⟨Effect.unlinkTmpStale :: pre, ?_, ?_⟩
              · intro e he
                rcases List.mem_cons.1 he with rfl | he'
                · decide
                · exact hpre e he'
              · simp [withEv, hT]
            · refine Or.inr ?_
              simp only [withEv]
              intro e he
              rcases List.mem_cons.1 he with rfl | he'
              · decide
              · exact hT e he'
      · simp only [if_neg hA]; right; decide
  unfold sendMessageBody
  cases hs : env.statTmp with
  | ok m =>
    rcases hagec (some (env.now - m)) with ⟨pre, hpre, hA⟩ | hA
    · refine Or.inl ⟨Effect.statTmp :: pre, ?_, ?_⟩
      · intro e he
        rcases List.mem_cons.1 he with rfl | he'
        · decide
        · exact hpre e he'
      · simp [withEv, hA]
    · refine Or.inr ?_
      simp only [withEv]
      intro e he
      rcases List.mem_cons.1 he with rfl | he'
      · decide
      · exact hA e he'
  | error e =>
    by_cases he : e = Errno.enoent
    · simp only [if_pos he]
      rcases hagec none with ⟨pre, hpre, hA⟩ | hA
      · refine Or.inl ⟨Effect.statTmp :: pre, ?_, ?_⟩
        · intro ev hev
          rcases List.mem_cons.1 hev with rfl | hev'
          · decide
          · exact hpre ev hev'
        · simp [withEv, hA]
      · refine Or.inr ?_
        simp only [withEv]
        intro ev hev
        rcases List.mem_cons.1 hev with rfl | hev'
        · decide
        · exact hA ev hev'
    · simp only [if_neg he]; right; decide

theorem stageUnlinkTmpFinal_no_sendMail (env : Env) (q : Bool)
    (f : List Char) (t : List (List Char)) (fa : List Char)
    (tas : List (List Char)) (b : List Char) :
    Effect.sendMail fa tas b ∉ (stageUnlinkTmpFinal env q f t).2 := by
  unfold stageUnlinkTmpFinal
  cases env.unlinkTmpFinal with
  | ok u => simp
  | error e => by_cases he : e = Errno.enoent <;> simp [he]

theorem stageUnlinkMsg_no_sendMail (env : Env) (q : Bool)
    (f : List Char) (t : List (List Char)) (fa : List Char)
    (tas : List (List Char)) (b : List Char) :
    Effect.sendMail fa tas b ∉ (stageUnlinkMsg env q f t).2 := by
  unfold stageUnlinkMsg
  cases env.unlinkMsg with
  | ok u =>
    simpa [withEv] using stageUnlinkTmpFinal_no_sendMail env q f t fa tas b
  | error e =>
    by_cases he : e = Errno.enoent
    · simpa [he, withEv] using
        stageUnlinkTmpFinal_no_sendMail env q f t fa tas b
    · simp [he]

/-- The only `sendMail` effect `stageSend` can emit carries exactly the
triple it was invoked with. -/
theorem stageSend_sendMail_mem (env : Env) {fa fa' : List Char}
    {tas tas' : List (List Char)} {b b' : List Char}
    (h : Effect.sendMail fa tas b ∈ (stageSend env fa' tas' b').2) :
    fa = fa' ∧ tas = tas' ∧ b = b' := by
  unfold stageSend at h
  cases hs : env.send with
  | ok =>
    rw [hs] at h
    simp only [withEv, List.mem_cons] at h
    rcases h with h | h
    · injection h with h1 h2 h3
      exact ⟨h1, h2, h3⟩
    · exact absurd h (stageUnlinkMsg_no_sendMail env false fa' tas' fa tas b)
  | smtpResponse code =>
    rw [hs] at h
    dsimp only at h
    by_cases h5 : 500 ≤ code ∧ code ≤ 599
    · rw [if_pos h5] at h
      cases hlr : env.linkRejected with
      | ok u =>
        rw [hlr] at h
        simp only [withEv, List.mem_cons] at h
        rcases h with h | h | h | h
        · injection h with h1 h2 h3
          exact ⟨h1, h2, h3⟩
        · exact absurd h (by simp)
        · exact absurd h (by simp)
        · exact absurd h (stageUnlinkMsg_no_sendMail env true fa' tas' fa tas b)
      | error e =>
        rw [hlr] at h
        simp only [List.mem_cons, List.not_mem_nil, or_false] at h
        rcases h with h | h | h
        · injection h with h1 h2 h3
          exact ⟨h1, h2, h3⟩
        · exact absurd h (by simp)
        · exact absurd h (by simp)
    · rw [if_neg h5] at h
      simp only [List.mem_cons, List.not_mem_nil, or_false] at h
      injection h with h1 h2 h3
      exact ⟨h1, h2, h3⟩
  | otherError =>
    rw [hs] at h
    simp only [List.mem_cons, List.not_mem_nil, or_false] at h
    injection h with h1 h2 h3
    exact ⟨h1, h2, h3⟩

/-! ## Claims about the protocol -/

/-- **C2.** With the tmp file present (its stat succeeds with mtime `m`,
so its age is `now - m`), the stale reclaim — the unlink of the tmp
file — is attempted iff the age strictly exceeds `MAX_SEND_TIME`; at age
`≤ MAX_SEND_TIME` (the boundary included) `_send_message` returns
`skippedFresh` having done nothing but the stat — no filesystem mutation
and no log record; and when the reclaim unlink succeeds the attempt
continues into the touch step. -/
theorem staleLock_reclaim_iff_age_gt_max (env : Env) (fn : List Char)
    (m : Int) (hstat : env.statTmp = Except.ok m) :
    (Effect.unlinkTmpStale ∈ (sendMessage env fn).2 ↔
      env.now - m > MAX_SEND_TIME) ∧
    (env.now - m ≤ MAX_SEND_TIME →
      sendMessage env fn = (Outcome.skippedFresh, [Effect.statTmp])) ∧
    (env.now - m > MAX_SEND_TIME → env.unlinkTmpStale = Except.ok () →
      ∃ tr, (sendMessage env fn).2 =
        Effect.statTmp :: Effect.unlinkTmpStale :: Effect.touchMsg :: tr) := by
  have hbody : sendMessageBody env =
      withEv Effect.statTmp (stageAgeCheck env (some (env.now - m))) := by
    simp [sendMessageBody, hstat]
  obtain ⟨t, ht⟩ : ∃ t, (stageTouch env).2 = Effect.touchMsg :: t := by
    rcases stageTouch_cases env with ⟨st, hT, _⟩ | hT | hT <;>
      exact ⟨_, by rw [hT]⟩
  by_cases hA : env.now - m > MAX_SEND_TIME
  · have hage : stageAgeCheck env (some (env.now - m)) =
        (Sum.inl Outcome.skippedReclaimLost, [Effect.unlinkTmpStale]) ∨
        stageAgeCheck env (some (env.now - m)) =
          withEv Effect.unlinkTmpStale (stageTouch env) := by
      unfold stageAgeCheck
      simp only [if_pos hA]
      cases hu : env.unlinkTmpStale with
      | ok u => exact Or.inr rfl
      | error e =>
        dsimp only
        by_cases he : e = Errno.enoent
        · rw [if_pos he]; exact Or.inl rfl
        · rw [if_neg he]; exact Or.inr rfl
    obtain ⟨extra, hex, -⟩ := sendMessage_trace_extends env fn
    rcases hage with hage | hage
    · have hb2 : sendMessageBody env =
          (Sum.inl Outcome.skippedReclaimLost,
            [Effect.statTmp, Effect.unlinkTmpStale]) := by
        rw [hbody, hage]; rfl
      have hsm : sendMessage env fn =
          (Outcome.skippedReclaimLost,
            [Effect.statTmp, Effect.unlinkTmpStale]) := by
        simp [sendMessage, hb2]
      refine ⟨?_, fun hle => absurd hA (not_lt.2 hle), fun _ hok => ?_⟩
      · simp [hsm, hA]
      · have hcomp : stageAgeCheck env (some (env.now - m)) =
            withEv Effect.unlinkTmpStale (stageTouch env) := by
          unfold stageAgeCheck
          simp only [if_pos hA, hok]
        rw [hcomp] at hage
        have h2 := congrArg Prod.snd hage
        simp only [withEv] at h2
        rw [ht] at h2
        simp at h2
    · have hb2 : (sendMessageBody env).2 =
          Effect.statTmp :: Effect.unlinkTmpStale :: Effect.touchMsg :: t := by
        rw [hbody, hage]
        simp [withEv, ht]
      refine ⟨?_, fun hle => absurd hA (not_lt.2 hle), fun _ _ => ?_⟩
      · rw [hex, hb2]
        simp [hA]
      · exact ⟨t ++ extra, by rw [hex, hb2]; simp⟩
  · have hage : stageAgeCheck env (some (env.now - m)) =
        (Sum.inl Outcome.skippedFresh, []) := by
      unfold stageAgeCheck
      simp only [if_neg hA]
    have hb2 : sendMessageBody env =
        (Sum.inl Outcome.skippedFresh, [Effect.statTmp]) := by
      rw [hbody, hage]; rfl
    have hsm : sendMessage env fn =
        (Outcome.skippedFresh, [Effect.statTmp]) := by
      simp [sendMessage, hb2]
    refine ⟨?_, fun _ => hsm, fun hgt _ => absurd hgt hA⟩
    simp [hsm, hA]

/-- Witness for C2: a lock aged `20000 - 0 > 10800` seconds triggers the
reclaim; the theorem instance also certifies the fresh-lock clauses. -/
theorem staleLock_reclaim_iff_age_gt_max_witness :
    (Effect.unlinkTmpStale ∈
        (sendMessage
          ⟨Except.ok 0, 20000, Except.ok (), Except.ok (), Except.ok (),
            Except.ok [], SendResult.ok, Except.ok (), Except.ok (),
            Except.ok ()⟩ ['m']).2 ↔
      (20000 : Int) - 0 > MAX_SEND_TIME) ∧
    ((20000 : Int) - 0 ≤ MAX_SEND_TIME →
      sendMessage
          ⟨Except.ok 0, 20000, Except.ok (), Except.ok (), Except.ok (),
            Except.ok [], SendResult.ok, Except.ok (), Except.ok (),
            Except.ok ()⟩ ['m'] =
        (Outcome.skippedFresh, [Effect.statTmp])) ∧
    ((20000 : Int) - 0 > MAX_SEND_TIME →
      Env.unlinkTmpStale
          ⟨Except.ok 0, 20000, Except.ok (), Except.ok (), Except.ok (),
            Except.ok [], SendResult.ok, Except.ok (), Except.ok (),
            Except.ok ()⟩ = Except.ok () →
      ∃ tr, (sendMessage
          ⟨Except.ok 0, 20000, Except.ok (), Except.ok (), Except.ok (),
            Except.ok [], SendResult.ok, Except.ok (), Except.ok (),
            Except.ok ()⟩ ['m']).2 =
        Effect.statTmp :: Effect.unlinkTmpStale :: Effect.touchMsg :: tr) :=
  staleLock_reclaim_iff_age_gt_max _ _ 0 rfl

/-- Rebuild an `Env` with a different outcome for the stale-reclaim
unlink call site, all other call sites unchanged. -/
def setUnlinkTmpStale (env : Env) (v : Except Errno Unit) : Env :=
  ⟨env.statTmp, env.now, v, env.utimeMsg, env.linkTmp, env.readMsg,
    env.send, env.linkRejected, env.unlinkMsg, env.unlinkTmpFinal⟩

theorem stageTouch_setUnlinkTmpStale (env : Env) (v : Except Errno Unit) :
    stageTouch (setUnlinkTmpStale env v) = stageTouch env := rfl

/-- **C9.** When the stale-reclaim unlink fails with any errno other than
`ENOENT`, the `except OSError` clause at queue.py 196-201 — which has no
`else: raise` — swallows the error: nothing is logged, nothing is
re-raised, and the whole run is indistinguishable from one in which the
unlink succeeded (same outcome, same trace, including touch, lock
re-acquisition and delivery). -/
theorem staleReclaim_unlink_error_swallowed (env : Env) (fn : List Char)
    (m : Int) (e : Errno) (hstat : env.statTmp = Except.ok m)
    (hage : env.now - m > MAX_SEND_TIME)
    (hu : env.unlinkTmpStale = Except.error e) (hne : e ≠ Errno.enoent) :
    sendMessage env fn = sendMessage (setUnlinkTmpStale env (Except.ok ())) fn := by
  obtain ⟨s, n, uts, ut, lt, rm, sd, lr, um, utf⟩ := env
  dsimp only at hstat hage hu
  subst hstat
  subst hu
  have hb : sendMessageBody
        ⟨Except.ok m, n, Except.error e, ut, lt, rm, sd, lr, um, utf⟩ =
      sendMessageBody
        ⟨Except.ok m, n, Except.ok (), ut, lt, rm, sd, lr, um, utf⟩ := by
    unfold sendMessageBody stageAgeCheck
    dsimp only
    rw [if_pos hage, if_neg hne, if_pos hage]
    rfl
  unfold sendMessage setUnlinkTmpStale
  rw [hb]

/-- Witness for C9: a stale lock whose unlink fails with `EACCES`;
the run equals the one where the unlink succeeded. -/
theorem staleReclaim_unlink_error_swallowed_witness :
    sendMessage
        ⟨Except.ok 0, 20000, Except.error Errno.eacces, Except.ok (),
          Except.ok (), Except.ok [], SendResult.ok, Except.ok (),
          Except.ok (), Except.ok ()⟩ ['m'] =
      sendMessage
        (setUnlinkTmpStale
          ⟨Except.ok 0, 20000, Except.error Errno.eacces, Except.ok (),
            Except.ok (), Except.ok [], SendResult.ok, Except.ok (),
            Except.ok (), Except.ok ()⟩ (Except.ok ())) ['m'] :=
  staleReclaim_unlink_error_swallowed _ _ 0 Errno.eacces rfl (by decide)
    rfl (by decide)

/-- **C5.** `_send_message` never propagates: whenever its body raises —
modelled by the body returning the `Sum.inr` (exception) case — the bare
`except:` converts the run into a normal `caught` return whose final
effect is the error log, with the recovered sender/recipients when
parsing produced any and with the raw filename otherwise; and a pass of
`send_messages` with no stop request processes every queued message. -/
theorem catchAll_swallows_everything :
    (∀ env : Env, ∀ fn fa tas tr,
      sendMessageBody env = (Sum.inr (fa, tas), tr) →
      sendMessage env fn = (Outcome.caught,
        tr ++ [if fa ≠ [] ∨ tas ≠ [] then Effect.logErrorAddrs fa tas
               else Effect.logErrorFilename fn])) ∧
    (∀ work : List (Env × List Char),
      (send_messages [] work).length = work.length) := by
  constructor
  · intro env fn fa tas tr h
    by_cases hc : fa ≠ [] ∨ tas ≠ [] <;> simp [sendMessage, h, hc]
  · intro work
    induction work with
    | nil => rfl
    | cons w ws ih => simp [send_messages, ih]

/-- Witness for C5: a message whose read fails is logged under its raw
filename and the run returns normally. -/
theorem catchAll_swallows_everything_witness :
    sendMessage
        ⟨Except.error Errno.enoent, 0, Except.ok (), Except.ok (),
          Except.ok (), Except.error (), SendResult.ok, Except.ok (),
          Except.ok (), Except.ok ()⟩ ['m'] =
      (Outcome.caught,
        [Effect.statTmp, Effect.touchMsg, Effect.linkTmp, Effect.readMsg,
          Effect.logErrorFilename ['m']]) := by
  have h := catchAll_swallows_everything.1
    ⟨Except.error Errno.enoent, 0, Except.ok (), Except.ok (),
      Except.ok (), Except.error (), SendResult.ok, Except.ok (),
      Except.ok (), Except.ok ()⟩ ['m'] [] []
    [Effect.statTmp, Effect.touchMsg, Effect.linkTmp, Effect.readMsg]
    (by decide)
  simpa using h

/-- **C8 (failing half).** `send_messages_thread(60)` starts the daemon
loop with `target=self.send_messages_daemon` and no arguments, so the
spawned loop sleeps the default 3 units after its pass — never the 60 it
was given. -/
theorem send_messages_thread_ignores_interval :
    send_messages_thread 60 [false, false] =
      [DaemonEvent.registerStop, DaemonEvent.pass, DaemonEvent.sleep 3] ∧
    DaemonEvent.sleep 60 ∉ send_messages_thread 60 [false, false] := by
  decide

/-- If a `sendMail` effect appears in a run's trace, the body reached the
read stage: the trace is a pre-lock prefix, then the read, then exactly
what `stageSend` produces for the parsed triple. -/
theorem sendMail_reach (env : Env) (fn : List Char) {fa : List Char}
    {tas : List (List Char)} {b : List Char}
    (hmem : Effect.sendMail fa tas b ∈ (sendMessage env fn).2) :
    ∃ pre content, (∀ e ∈ pre, preLockEffect e = true) ∧
      env.readMsg = Except.ok content ∧
      parseMessage content = (fa, tas, b) ∧
      sendMessageBody env =
        ((stageSend env fa tas b).1,
          pre ++ Effect.readMsg :: (stageSend env fa tas b).2) := by
  obtain ⟨extra, hex, hlog⟩ := sendMessage_trace_extends env fn
  rw [hex] at hmem
  rcases List.mem_append.1 hmem with hmem' | hmem'
  · rcases sendMessageBody_read_cases env with ⟨pre, hpre, hbody⟩ | hall
    · rw [hbody] at hmem'
      simp only [List.mem_append] at hmem'
      rcases hmem' with hp | hr
      · have := hpre _ hp
        simp [preLockEffect] at this
      · unfold stageRead at hr hbody
        cases hrm : env.readMsg with
        | error u => rw [hrm] at hr; simp at hr
        | ok content =>
          rw [hrm] at hr hbody
          dsimp only at hr hbody
          rcases hp : parseMessage content with ⟨fa', tas', b'⟩
          rw [hp] at hr hbody
          dsimp only [withEv] at hr hbody
          simp only [List.mem_cons] at hr
          rcases hr with hr | hr
          · exact absurd hr (by simp)
          · obtain ⟨h1, h2, h3⟩ := stageSend_sendMail_mem env hr
            subst h1; subst h2; subst h3
            exact ⟨pre, content, hpre, rfl, hp, hbody⟩
    · have := hall _ hmem'
      simp [preLockEffect] at this
  · rcases hlog _ hmem' with ⟨fa', tas', h'⟩ | h' <;> simp at h'

/-- **C3.** After the lock is held, an SMTP response error with code in
500-599 from the transport makes `_send_message` log the permanent error
with sender and recipients, create the `.rejected-` quarantine hard link,
remove the live message file and the lock — tolerating `ENOENT` from
either unlink — and return normally with outcome `quarantined`: the
message leaves the active queue and nothing re-raises. -/
theorem permanentFailure_quarantines (env : Env) (fn : List Char)
    (fa : List Char) (tas : List (List Char)) (b : List Char) (code : Int)
    (hsend : env.send = SendResult.smtpResponse code)
    (h5 : 500 ≤ code ∧ code ≤ 599)
    (hlr : env.linkRejected = Except.ok ())
    (hum : env.unlinkMsg = Except.ok () ∨
      env.unlinkMsg = Except.error Errno.enoent)
    (hutf : env.unlinkTmpFinal = Except.ok () ∨
      env.unlinkTmpFinal = Except.error Errno.enoent)
    (hmem : Effect.sendMail fa tas b ∈ (sendMessage env fn).2) :
    (sendMessage env fn).1 = Outcome.quarantined ∧
    ∃ pre, (sendMessage env fn).2 =
      pre ++ [Effect.readMsg, Effect.sendMail fa tas b,
        Effect.logErrorPermanent fa tas, Effect.linkRejected,
        Effect.unlinkMsg, Effect.unlinkTmpFinal,
        Effect.logInfoSent fa tas] := by
  have hstage : stageSend env fa tas b =
      (Sum.inl Outcome.quarantined,
        [Effect.sendMail fa tas b, Effect.logErrorPermanent fa tas,
          Effect.linkRejected, Effect.unlinkMsg, Effect.unlinkTmpFinal,
          Effect.logInfoSent fa tas]) := by
    rcases hum with hum | hum <;> rcases hutf with hutf | hutf <;>
      simp [stageSend, hsend, h5, hlr, stageUnlinkMsg,
        stageUnlinkTmpFinal, hum, hutf, withEv]
  obtain ⟨pre, content, hpre, hrm, hp, hbody⟩ := sendMail_reach env fn hmem
  rw [hstage] at hbody
  have hsm : sendMessage env fn =
      (Outcome.quarantined,
        pre ++ Effect.readMsg ::
          [Effect.sendMail fa tas b, Effect.logErrorPermanent fa tas,
            Effect.linkRejected, Effect.unlinkMsg, Effect.unlinkTmpFinal,
            Effect.logInfoSent fa tas]) := by
    simp [sendMessage, hbody]
  rw [hsm]
  exact ⟨rfl, pre, rfl⟩

/-- Witness for C3: a 550 response quarantines the parsed message. -/
theorem permanentFailure_quarantines_witness :
    (sendMessage
        ⟨Except.error Errno.enoent, 0, Except.ok (), Except.ok (),
          Except.ok (),
          Except.ok ('X' :: '\n' :: 'Y' :: '\n' :: ['z']),
          SendResult.smtpResponse 550, Except.ok (), Except.ok (),
          Except.ok ()⟩ ['m']).1 = Outcome.quarantined ∧
    ∃ pre, (sendMessage
        ⟨Except.error Errno.enoent, 0, Except.ok (), Except.ok (),
          Except.ok (),
          Except.ok ('X' :: '\n' :: 'Y' :: '\n' :: ['z']),
          SendResult.smtpResponse 550, Except.ok (), Except.ok (),
          Except.ok ()⟩ ['m']).2 =
      pre ++ [Effect.readMsg, Effect.sendMail [] [] ['z'],
        Effect.logErrorPermanent [] [], Effect.linkRejected,
        Effect.unlinkMsg, Effect.unlinkTmpFinal,
        Effect.logInfoSent [] []] :=
  permanentFailure_quarantines _ _ [] [] ['z'] 550 rfl (by decide) rfl
    (Or.inl rfl) (Or.inl rfl) (by decide)

/-- **C4.** A transport failure that is not a 5xx SMTP response — a non-5xx
response code or any other exception — re-raises into the catch-all: the
run ends `caught`, no quarantine link and no unlink of the message or the
lock is ever attempted, and the final effect is the error log carrying the
recovered sender/recipients when parsing produced any, else the raw
filename; the message and lock stay for a later pass. -/
theorem transientFailure_leaves_message (env : Env) (fn : List Char)
    (fa : List Char) (tas : List (List Char)) (b : List Char)
    (hsend : (∃ code, env.send = SendResult.smtpResponse code ∧
        ¬(500 ≤ code ∧ code ≤ 599)) ∨
      env.send = SendResult.otherError)
    (hmem : Effect.sendMail fa tas b ∈ (sendMessage env fn).2) :
    (sendMessage env fn).1 = Outcome.caught ∧
    Effect.unlinkMsg ∉ (sendMessage env fn).2 ∧
    Effect.unlinkTmpFinal ∉ (sendMessage env fn).2 ∧
    Effect.linkRejected ∉ (sendMessage env fn).2 ∧
    ∃ pre, (sendMessage env fn).2 =
      pre ++ [Effect.readMsg, Effect.sendMail fa tas b,
        if fa ≠ [] ∨ tas ≠ [] then Effect.logErrorAddrs fa tas
        else Effect.logErrorFilename fn] := by
  have hstage : stageSend env fa tas b =
      (Sum.inr (fa, tas), [Effect.sendMail fa tas b]) := by
    rcases hsend with ⟨code, hc, hn5⟩ | ho
    · simp [stageSend, hc, hn5]
    · simp [stageSend, ho]
  obtain ⟨pre, content, hpre, hrm, hp, hbody⟩ := sendMail_reach env fn hmem
  rw [hstage] at hbody
  have hsm : sendMessage env fn =
      (Outcome.caught,
        (pre ++ [Effect.readMsg, Effect.sendMail fa tas b]) ++
          [if fa ≠ [] ∨ tas ≠ [] then Effect.logErrorAddrs fa tas
           else Effect.logErrorFilename fn]) := by
    by_cases hc : fa ≠ [] ∨ tas ≠ [] <;> simp [sendMessage, hbody, hc]
  rw [hsm]
  refine ⟨rfl, ?_, ?_, ?_, pre, by simp⟩ <;>
  · intro hbad
    simp only [List.mem_append, List.mem_cons, List.not_mem_nil] at hbad
    rcases hbad with hbad | hbad
    · rcases hbad with hbad | hbad
      · have := hpre _ hbad
        simp [preLockEffect] at this
      · rcases hbad with hbad | hbad | hbad <;> simp_all
    · rcases hbad with hbad | hbad
      · split at hbad <;> simp_all
      · exact hbad

/-- Witness for C4: a 450 response leaves the message; the addresses were
not recovered (no markers), so the log carries the filename. -/
theorem transientFailure_leaves_message_witness :
    (sendMessage
        ⟨Except.error Errno.enoent, 0, Except.ok (), Except.ok (),
          Except.ok (),
          Except.ok ('X' :: '\n' :: 'Y' :: '\n' :: ['z']),
          SendResult.smtpResponse 450, Except.ok (), Except.ok (),
          Except.ok ()⟩ ['m']).1 = Outcome.caught ∧
    Effect.unlinkMsg ∉ (sendMessage
        ⟨Except.error Errno.enoent, 0, Except.ok (), Except.ok (),
          Except.ok (),
          Except.ok ('X' :: '\n' :: 'Y' :: '\n' :: ['z']),
          SendResult.smtpResponse 450, Except.ok (), Except.ok (),
          Except.ok ()⟩ ['m']).2 ∧
    Effect.unlinkTmpFinal ∉ (sendMessage
        ⟨Except.error Errno.enoent, 0, Except.ok (), Except.ok (),
          Except.ok (),
          Except.ok ('X' :: '\n' :: 'Y' :: '\n' :: ['z']),
          SendResult.smtpResponse 450, Except.ok (), Except.ok (),
          Except.ok ()⟩ ['m']).2 ∧
    Effect.linkRejected ∉ (sendMessage
        ⟨Except.error Errno.enoent, 0, Except.ok (), Except.ok (),
          Except.ok (),
          Except.ok ('X' :: '\n' :: 'Y' :: '\n' :: ['z']),
          SendResult.smtpResponse 450, Except.ok (), Except.ok (),
          Except.ok ()⟩ ['m']).2 ∧
    ∃ pre, (sendMessage
        ⟨Except.error Errno.enoent, 0, Except.ok (), Except.ok (),
          Except.ok (),
          Except.ok ('X' :: '\n' :: 'Y' :: '\n' :: ['z']),
          SendResult.smtpResponse 450, Except.ok (), Except.ok (),
          Except.ok ()⟩ ['m']).2 =
      pre ++ [Effect.readMsg, Effect.sendMail [] [] ['z'],
        if ([] : List Char) ≠ [] ∨ ([] : List (List Char)) ≠ [] then
          Effect.logErrorAddrs [] []
        else Effect.logErrorFilename ['m']] :=
  transientFailure_leaves_message _ _ [] [] ['z']
    (Or.inl ⟨450, rfl, by decide⟩) (by decide)

/-- **C10.** When the transport reports a 5xx permanent failure but the
`.rejected-` quarantine link itself fails (the marker already exists, so
the hard link raises `EEXIST`), the exception skips the finalize unlinks
and lands in the catch-all, which only logs: the live message file and the
lock are never unlinked, so the permanently-failing message stays queued
and will be retried. -/
theorem quarantineLinkExists_message_retained (env : Env) (fn : List Char)
    (fa : List Char) (tas : List (List Char)) (b : List Char) (code : Int)
    (hsend : env.send = SendResult.smtpResponse code)
    (h5 : 500 ≤ code ∧ code ≤ 599)
    (hlr : env.linkRejected = Except.error Errno.eexist)
    (hmem : Effect.sendMail fa tas b ∈ (sendMessage env fn).2) :
    (sendMessage env fn).1 = Outcome.caught ∧
    Effect.unlinkMsg ∉ (sendMessage env fn).2 ∧
    Effect.unlinkTmpFinal ∉ (sendMessage env fn).2 ∧
    ∃ pre, (sendMessage env fn).2 =
      pre ++ [Effect.readMsg, Effect.sendMail fa tas b,
        Effect.logErrorPermanent fa tas, Effect.linkRejected,
        if fa ≠ [] ∨ tas ≠ [] then Effect.logErrorAddrs fa tas
        else Effect.logErrorFilename fn] := by
  have hstage : stageSend env fa tas b =
      (Sum.inr (fa, tas),
        [Effect.sendMail fa tas b, Effect.logErrorPermanent fa tas,
          Effect.linkRejected]) := by
    simp [stageSend, hsend, h5, hlr]
  obtain ⟨pre, content, hpre, hrm, hp, hbody⟩ := sendMail_reach env fn hmem
  rw [hstage] at hbody
  have hsm : sendMessage env fn =
      (Outcome.caught,
        (pre ++ [Effect.readMsg, Effect.sendMail fa tas b,
          Effect.logErrorPermanent fa tas, Effect.linkRejected]) ++
          [if fa ≠ [] ∨ tas ≠ [] then Effect.logErrorAddrs fa tas
           else Effect.logErrorFilename fn]) := by
    by_cases hc : fa ≠ [] ∨ tas ≠ [] <;> simp [sendMessage, hbody, hc]
  rw [hsm]
  refine ⟨rfl, ?_, ?_, pre, by simp⟩ <;>
  · intro hbad
    simp only [List.mem_append, List.mem_cons, List.not_mem_nil] at hbad
    rcases hbad with hbad | hbad
    · rcases hbad with hbad | hbad
      · have := hpre _ hbad
        simp [preLockEffect] at this
      · rcases hbad with hbad | hbad | hbad | hbad <;> simp_all
    · rcases hbad with hbad | hbad
      · split at hbad <;> simp_all
      · exact hbad

/-- Witness for C10: a 550 response with the quarantine link failing with
`EEXIST` leaves the message and lock untouched. -/
theorem quarantineLinkExists_message_retained_witness :
    (sendMessage
        ⟨Except.error Errno.enoent, 0, Except.ok (), Except.ok (),
          Except.ok (),
          Except.ok ('X' :: '\n' :: 'Y' :: '\n' :: ['z']),
          SendResult.smtpResponse 550, Except.error Errno.eexist,
          Except.ok (), Except.ok ()⟩ ['m']).1 = Outcome.caught ∧
    Effect.unlinkMsg ∉ (sendMessage
        ⟨Except.error Errno.enoent, 0, Except.ok (), Except.ok (),
          Except.ok (),
          Except.ok ('X' :: '\n' :: 'Y' :: '\n' :: ['z']),
          SendResult.smtpResponse 550, Except.error Errno.eexist,
          Except.ok (), Except.ok ()⟩ ['m']).2 ∧
    Effect.unlinkTmpFinal ∉ (sendMessage
        ⟨Except.error Errno.enoent, 0, Except.ok (), Except.ok (),
          Except.ok (),
          Except.ok ('X' :: '\n' :: 'Y' :: '\n' :: ['z']),
          SendResult.smtpResponse 550, Except.error Errno.eexist,
          Except.ok (), Except.ok ()⟩ ['m']).2 ∧
    ∃ pre, (sendMessage
        ⟨Except.error Errno.enoent, 0, Except.ok (), Except.ok (),
          Except.ok (),
          Except.ok ('X' :: '\n' :: 'Y' :: '\n' :: ['z']),
          SendResult.smtpResponse 550, Except.error Errno.eexist,
          Except.ok (), Except.ok ()⟩ ['m']).2 =
      pre ++ [Effect.readMsg, Effect.sendMail [] [] ['z'],
        Effect.logErrorPermanent [] [], Effect.linkRejected,
        if ([] : List Char) ≠ [] ∨ ([] : List (List Char)) ≠ [] then
          Effect.logErrorAddrs [] []
        else Effect.logErrorFilename ['m']] :=
  quarantineLinkExists_message_retained _ _ [] [] ['z'] 550 rfl
    (by decide) rfl (by decide)

end RepozeSendmail
